import Mathlib

/-!
Verification of the annotation persistence engine of the Kiosk repository
(`src-tauri/src/annotations.rs`), shallowly embedded in Lean 4.

Numbers: the Rust code works with `f64` values and narrows them to `f32`
(the graph library's `Real` tag) when encoding.  We model both as exact
rationals; the explicit `f32` narrowing performed by every `as f32` cast in
the encoder is modelled by `f32round`, IEEE-754 round-to-nearest-even onto
the single-precision grid (binary arithmetic on the normal/subnormal range;
the exponent-overflow-to-infinity case of a real `f32` is not reachable in
any statement below and is left as the rounded value).  `f64` arithmetic
(the remover's tolerance test) is modelled as exact rational arithmetic.

The document graph library (lopdf) is an external collaborator; its
interface is modelled from the spec, section 6: a graph of id-addressed
tagged objects with get/set/add and a page-number-to-id map, plus one final
`save`.  Writing to the destination file is modelled by returning the
serialized document: a call that returns an error returns no document, so
nothing was written.
-/

/-- Fuel-driven base-2 logarithm on naturals (structural recursion, so it
reduces definitionally; `natLog2 n = ⌊log₂ n⌋` for `n ≥ 1`). -/
def log2fuel : Nat → Nat → Nat
  | 0, _ => 0
  | fuel + 1, n => if 2 ≤ n then log2fuel fuel (n / 2) + 1 else 0

/-- Base-2 logarithm on naturals. -/
def natLog2 (n : Nat) : Nat := log2fuel n n

/-- Integer power of two as a rational, for negative exponents as well. -/
def pow2z (e : Int) : ℚ :=
  if 0 ≤ e then ((2 : ℚ)) ^ e.toNat else 1 / ((2 : ℚ)) ^ (-e).toNat

/-- Round a rational to the nearest integer, ties to even. -/
def roundHalfEven (q : ℚ) : Int :=
  let f := ⌊q⌋
  let r := q - f
  if r < 1 / 2 then f
  else if 1 / 2 < r then f + 1
  else if f % 2 = 0 then f else f + 1

/-- The binary exponent of a positive rational: the unique `e` with
`2 ^ e ≤ m < 2 ^ (e + 1)`. -/
def binExp (m : ℚ) : Int :=
  let c : Int := (natLog2 m.num.natAbs : Int) - (natLog2 m.den : Int)
  if pow2z c ≤ m then c else c - 1

/-- Rust's `as f32` narrowing, modelled exactly over the rationals:
round-to-nearest-even onto the 24-bit-significand grid, with the
single-precision subnormal range below `2 ^ (-126)`. -/
def f32round (q : ℚ) : ℚ :=
  if q = 0 then 0
  else
    let sign : ℚ := if q < 0 then -1 else 1
    let m := |q|
    let e : Int := max (binExp m) (-126)
    sign * (roundHalfEven (m * pow2z (23 - e)) : ℚ) * pow2z (e - 23)

/-- Object ids of the document graph: (object number, generation), as in the
graph library. -/
abbrev ObjectId := Nat × Nat

/-- A tagged value of the document object graph — the subset of tags the
annotation module manipulates (the stream tag is never produced nor
inspected by it; any further tag would take the same catch-all branches as
`Null` below). -/
inductive Object where
  | Null : Object
  | Boolean : Bool → Object
  | Integer : Int → Object
  | Real : ℚ → Object
  | Name : String → Object
  | String : String → Object
  | Array : List Object → Object
  | Dictionary : List (String × Object) → Object
  | Reference : ObjectId → Object

/-- A graph dictionary: an insertion-ordered association list, as in the
graph library. -/
abbrev Dict := List (String × Object)

/-- Key lookup in a dictionary (`Dictionary::get`). -/
def dictGet (d : Dict) (k : String) : Option Object :=
  match d with
  | [] => none
  | (k', v) :: rest => if k' = k then some v else dictGet rest k

/-- Key update in a dictionary (`Dictionary::set`): replaces the first
binding in place, or appends a new one. -/
def dictSet (d : Dict) (k : String) (v : Object) : Dict :=
  match d with
  | [] => [(k, v)]
  | (k', v') :: rest => if k' = k then (k, v) :: rest else (k', v') :: dictSet rest k v

/-- Key removal in a dictionary (`Dictionary::remove`). -/
def dictRemove (d : Dict) (k : String) : Dict :=
  match d with
  | [] => []
  | (k', v') :: rest => if k' = k then dictRemove rest k else (k', v') :: dictRemove rest k

/-- Id lookup in the object store. -/
def lookupId (os : List (ObjectId × Object)) (id : ObjectId) : Option Object :=
  match os with
  | [] => none
  | (id', o) :: rest => if id' = id then some o else lookupId rest id

/-- Replace the first binding of `id`, or append one (a map insert). -/
def storeSet (os : List (ObjectId × Object)) (id : ObjectId) (o : Object) :
    List (ObjectId × Object) :=
  match os with
  | [] => [(id, o)]
  | (id', o') :: rest => if id' = id then (id, o) :: rest else (id', o') :: storeSet rest id o

/-- A loaded document graph: the id-addressed object store, the
page-number-to-page-object-id map produced by `get_pages` (1-based page
numbers, ascending), and the running maximum object number used to allocate
fresh ids. -/
structure Document where
  objects : List (ObjectId × Object)
  pages : List (Nat × ObjectId)
  max_id : Nat

/-- `Document::get_object`: fetch the object stored under an id. -/
def Document.get_object (doc : Document) (id : ObjectId) : Option Object :=
  lookupId doc.objects id

/-- `Document::set_object`: store an object under an existing id. -/
def Document.set_object (doc : Document) (id : ObjectId) (o : Object) : Document :=
  { doc with objects := storeSet doc.objects id o }

/-- `Document::add_object`: allocate a fresh id (`max_id + 1`, generation 0)
and store the object under it. -/
def Document.add_object (doc : Document) (o : Object) : Document × ObjectId :=
  let id : ObjectId := (doc.max_id + 1, 0)
  ({ doc with objects := doc.objects ++ [(id, o)], max_id := doc.max_id + 1 }, id)

/-- `pages.get(&n)` on the page map of `get_pages`. -/
def lookupPage (ps : List (Nat × ObjectId)) (n : Nat) : Option ObjectId :=
  match ps with
  | [] => none
  | (n', id) :: rest => if n' = n then some id else lookupPage rest n

/-- Errors of the annotation module (`enum AnnotationError`). -/
inductive AnnotationError where
  | LoadError : String → AnnotationError
  | SaveError : String → AnnotationError
  | InvalidPage : Nat → AnnotationError
  | AnnotationFailed : String → AnnotationError
  deriving DecidableEq

/-- The closed set of annotation kinds (`enum AnnotationType`). -/
inductive AnnotationType where
  | Highlight
  | Underline
  | Strikethrough
  | Ink
  | Text
  deriving DecidableEq

/-- A rectangle in page coordinates, bottom-left origin (`struct PdfRect`). -/
structure PdfRect where
  x1 : ℚ
  y1 : ℚ
  x2 : ℚ
  y2 : ℚ
  deriving DecidableEq

/-- A point in page coordinates (`struct PdfPoint`). -/
structure PdfPoint where
  x : ℚ
  y : ℚ
  deriving DecidableEq

/-- An RGB color with components in `[0, 1]` (`struct AnnotationColor`). -/
structure AnnotationColor where
  r : ℚ
  g : ℚ
  b : ℚ
  deriving DecidableEq

/-- The in-memory annotation instance exchanged with the caller
(`struct AnnotationData`). -/
structure AnnotationData where
  annotation_type : AnnotationType
  page : Nat
  rect : PdfRect
  quad_points : List PdfPoint
  ink_paths : List (List PdfPoint)
  contents : String
  color : AnnotationColor
  opacity : ℚ
  stroke_width : ℚ
  id : Option String
  deriving DecidableEq

/-- Result record of a save call (`struct SaveResult`). -/
structure SaveResult where
  success : Bool
  path : String
  annotations_count : Nat
  deriving DecidableEq

/-- Helper `get_number`: extract a numeric value from a graph object. -/
def get_number : Object → Option ℚ
  | .Integer i => some (i : ℚ)
  | .Real f => some f
  | _ => none

/-- Helper `get_object_id`: an object must be an indirect reference. -/
def get_object_id : Object → Except AnnotationError ObjectId
  | .Reference id => .ok id
  | _ => .error (.AnnotationFailed "Expected object reference")

/-- Consecutive x,y pairs of a coordinate array, exactly as the decoder's
`step_by(2)` loops read them: a pair whose either half is non-numeric is
skipped, a trailing odd element is dropped. -/
def parsePointPairs : List Object → List PdfPoint
  | x :: y :: rest =>
    match get_number x, get_number y with
    | some a, some b => ⟨a, b⟩ :: parsePointPairs rest
    | _, _ => parsePointPairs rest
  | _ => []

/-- The `InkList` reading loop: each array element is one stroke, non-array
elements are skipped, and strokes that decode to zero points are dropped. -/
def parseInkPaths : List Object → List (List PdfPoint)
  | [] => []
  | .Array path :: rest =>
    let pts := parsePointPairs path
    if pts.isEmpty then parseInkPaths rest else pts :: parseInkPaths rest
  | _ :: rest => parseInkPaths rest

/-- The `Subtype` field read: present and a name. -/
def readSubtype (dict : Dict) : Option String :=
  match dictGet dict "Subtype" with
  | some (.Name s) => some s
  | _ => none

/-- The `Rect` field read: an array of exactly 4 numbers, else the
annotation is skipped. -/
def readRect (dict : Dict) : Option PdfRect :=
  match dictGet dict "Rect" with
  | some (.Array [a, b, c, d]) =>
    match get_number a, get_number b, get_number c, get_number d with
    | some x1, some y1, some x2, some y2 => some ⟨x1, y1, x2, y2⟩
    | _, _, _, _ => none
  | _ => none

/-- The `C` field read: an array of at least 3 entries, each component
falling back to the default yellow channel when non-numeric; default yellow
when the field is absent or malformed. -/
def readColor (dict : Dict) : AnnotationColor :=
  match dictGet dict "C" with
  | some (.Array (a :: b :: c :: _)) =>
    ⟨(get_number a).getD 1, (get_number b).getD (23 / 25), (get_number c).getD (23 / 100)⟩
  | _ => ⟨1, 23 / 25, 23 / 100⟩

/-- The `Contents` field read: a string, defaulting to empty. -/
def readContents (dict : Dict) : String :=
  match dictGet dict "Contents" with
  | some (.String s) => s
  | _ => ""

/-- The `CA` (opacity) field read: a number, defaulting to 1. -/
def readOpacity (dict : Dict) : ℚ :=
  ((dictGet dict "CA").bind get_number).getD 1

/-- The subtype-name-to-variant map of the decoder; unsupported subtypes
yield `none` and the annotation is skipped. -/
def mapSubtype : String → Option AnnotationType
  | "Highlight" => some .Highlight
  | "Underline" => some .Underline
  | "StrikeOut" => some .Strikethrough
  | "Ink" => some .Ink
  | "Text" => some .Text
  | _ => none

/-- The `QuadPoints` field read (performed for every recognized subtype):
pairs of a coordinate array, defaulting to the empty list. -/
def readQuadPoints (dict : Dict) : List PdfPoint :=
  match dictGet dict "QuadPoints" with
  | some (.Array arr) => parsePointPairs arr
  | _ => []

/-- The `InkList` field read, defaulting to the empty list. -/
def readInkPaths (dict : Dict) : List (List PdfPoint) :=
  match dictGet dict "InkList" with
  | some (.Array ink_list) => parseInkPaths ink_list
  | _ => []

/-- The stroke-width read: `W` inside the `BS` border-style dictionary,
defaulting to 2. -/
def readStrokeWidth (dict : Dict) : ℚ :=
  match dictGet dict "BS" with
  | some (.Dictionary bs) => ((dictGet bs "W").bind get_number).getD 2
  | _ => 2

/-- The body of the decoder's per-object parser on a dictionary: the `?`
chain of the Rust code reads `Subtype` and `Rect` (either missing or
malformed skips the annotation), maps the subtype name (an unsupported name
skips the annotation), and reads every remaining field with its default. -/
def parseAnnotDict (dict : Dict) (page_index : Nat) : Option AnnotationData :=
  match readSubtype dict with
  | none => none
  | some subtype =>
    match readRect dict with
    | none => none
    | some rect =>
      match mapSubtype subtype with
      | none => none
      | some annotation_type =>
        some
          { annotation_type
            page := page_index
            rect
            quad_points := readQuadPoints dict
            ink_paths := readInkPaths dict
            contents := readContents dict
            color := readColor dict
            opacity := readOpacity dict
            stroke_width := readStrokeWidth dict
            id := none }

/-- The decoder's per-object parser (source function ` parse_annotation`,
renamed): a dictionary yields an instance per `parseAnnotDict`; anything
else yields `none` and is skipped. -/
def parse_annot (obj : Object) (page_index : Nat) : Option AnnotationData :=
  match obj with
  | .Dictionary dict => parseAnnotDict dict page_index
  | _ => none

/-- The decoder's loop over one page's `Annots` entries: `get_object_id` is
applied to each entry with the `?` operator, so a non-reference entry aborts
the whole call; a reference whose target is missing, or whose target fails
to parse, is skipped. -/
def decodeEntries (doc : Document) (pageIdx : Nat) :
    List Object → Except AnnotationError (List AnnotationData)
  | [] => .ok []
  | e :: rest => do
    let rid ← get_object_id e
    let head :=
      match doc.get_object rid with
      | some obj =>
        match parse_annot obj pageIdx with
        | some a => [a]
        | none => []
      | none => []
    let tail ← decodeEntries doc pageIdx rest
    .ok (head ++ tail)

/-- The decoder's per-page step: the page object must be a dictionary; its
`Annots` entry, when present, is passed through `get_object_id` with the `?`
operator — so a direct-array `Annots` aborts the whole call — and the
referenced object contributes its entries when it is an array. -/
def decodePage (doc : Document) (pageId : ObjectId) (pageIdx : Nat) :
    Except AnnotationError (List AnnotationData) :=
  match doc.get_object pageId with
  | some (.Dictionary page_dict) =>
    match dictGet page_dict "Annots" with
    | some annots => do
      let aid ← get_object_id annots
      match doc.get_object aid with
      | some (.Array annot_refs) => decodeEntries doc pageIdx annot_refs
      | _ => .ok []
    | none => .ok []
  | _ => .ok []

/-- The decoder's loop over the page map, in ascending page order. -/
def decodePages (doc : Document) :
    List (Nat × ObjectId) → Except AnnotationError (List AnnotationData)
  | [] => .ok []
  | (page_num, page_id) :: rest => do
    let here ← decodePage doc page_id (page_num - 1)
    let tail ← decodePages doc rest
    .ok (here ++ tail)

/-- Source function `get_annotations`, after the document has been loaded:
walk every page and collect the parsed annotation instances. -/
def get_annotations (doc : Document) : Except AnnotationError (List AnnotationData) :=
  decodePages doc doc.pages

/-- The flattened coordinate list of a point sequence as the encoder writes
it: `x, y` per point, each narrowed to single precision. -/
def flattenPoints (ps : List PdfPoint) : List Object :=
  match ps with
  | [] => []
  | p :: rest => .Real (f32round p.x) :: .Real (f32round p.y) :: flattenPoints rest

/-- Source function `add_quad_points`: set the `QuadPoints` entry of a
markup annotation dictionary.  With no supplied quad points the default quad
is the four rectangle corners in the order top-left, top-right, bottom-left,
bottom-right; otherwise the supplied points are flattened in order. -/
def add_quad_points (dict : Dict) (quad_points : List PdfPoint) (rect : PdfRect) : Dict :=
  if quad_points.isEmpty then
    dictSet dict "QuadPoints" (.Array
      [.Real (f32round rect.x1), .Real (f32round rect.y2),
       .Real (f32round rect.x2), .Real (f32round rect.y2),
       .Real (f32round rect.x1), .Real (f32round rect.y1),
       .Real (f32round rect.x2), .Real (f32round rect.y1)])
  else
    dictSet dict "QuadPoints" (.Array (flattenPoints quad_points))

/-- The common fields every encoded annotation dictionary starts with, in
the source's `dict.set` order (all keys distinct, on a fresh dictionary, so
the insertion-ordered dictionary is this literal list).  `now` is the
wall-clock date string the source formats from the current UTC time; the
module never inspects it again, so it is threaded as a parameter. -/
def baseAnnotDict (annot : AnnotationData) (page_id : ObjectId) (now : String) : Dict :=
  [("Type", .Name "Annot"),
   ("P", .Reference page_id),
   ("Rect", .Array
     [.Real (f32round annot.rect.x1), .Real (f32round annot.rect.y1),
      .Real (f32round annot.rect.x2), .Real (f32round annot.rect.y2)]),
   ("C", .Array
     [.Real (f32round annot.color.r), .Real (f32round annot.color.g),
      .Real (f32round annot.color.b)]),
   ("CA", .Real (f32round annot.opacity)),
   ("F", .Integer 4),
   ("CreationDate", .String now),
   ("M", .String now)]

/-- The type-specific tail of an encoded annotation dictionary, per the
`match annot.annotation_type` arms of the encoder. -/
def typeSpecificDict (annot : AnnotationData) (dict : Dict) : Dict :=
  match annot.annotation_type with
  | .Highlight => add_quad_points (dictSet dict "Subtype" (.Name "Highlight")) annot.quad_points annot.rect
  | .Underline => add_quad_points (dictSet dict "Subtype" (.Name "Underline")) annot.quad_points annot.rect
  | .Strikethrough => add_quad_points (dictSet dict "Subtype" (.Name "StrikeOut")) annot.quad_points annot.rect
  | .Ink =>
    let withSub := dictSet dict "Subtype" (.Name "Ink")
    let ink_list : List Object := annot.ink_paths.map (fun path => .Array (flattenPoints path))
    let withInk := dictSet withSub "InkList" (.Array ink_list)
    dictSet withInk "BS" (.Dictionary
      [("Type", .Name "Border"), ("W", .Real (f32round annot.stroke_width))])
  | .Text =>
    let withSub := dictSet dict "Subtype" (.Name "Text")
    let withContents := dictSet withSub "Contents" (.String annot.contents)
    let withName := dictSet withContents "Name" (.Name "Comment")
    dictSet withName "Open" (.Boolean false)

/-- Source function `create_annotation_object`: build the annotation
dictionary and add it to the graph as a fresh indirect object (the Rust
signature returns `Result` but has no failing path). -/
def create_annotation_object (doc : Document) (annot : AnnotationData)
    (page_id : ObjectId) (now : String) : Document × ObjectId :=
  doc.add_object (.Dictionary (typeSpecificDict annot (baseAnnotDict annot page_id now)))

/-- One step of the grouping `annotations_by_page.entry(page).or_default().push(annot)`:
insert into an ascending-by-page association list, appending to the page's
list when the page is present. -/
def insertByPage (m : List (Nat × List AnnotationData)) (a : AnnotationData) :
    List (Nat × List AnnotationData) :=
  match m with
  | [] => [(a.page, [a])]
  | (k, v) :: rest =>
    if a.page = k then (k, v ++ [a]) :: rest
    else if a.page < k then (a.page, [a]) :: (k, v) :: rest
    else (k, v) :: insertByPage rest a

/-- The encoder's grouping of the input list by page: a `BTreeMap` built by
pushing the instances in input order, iterated in ascending page order. -/
def groupByPage (annotations : List AnnotationData) : List (Nat × List AnnotationData) :=
  annotations.foldl insertByPage []

/-- The encoder's inner loop: create one annotation object per instance of
one page, in order, collecting the references to the new objects. -/
def createAll (doc : Document) (annots : List AnnotationData)
    (page_id : ObjectId) (now : String) : Document × List Object :=
  match annots with
  | [] => (doc, [])
  | a :: rest =>
    let (doc1, annot_id) := create_annotation_object doc a page_id now
    let (doc2, refs) := createAll doc1 rest page_id now
    (doc2, .Reference annot_id :: refs)

/-- The encoder's link step for one page: read the existing `Annots` entry
(dereferencing an indirect reference; anything else contributes no existing
entries), extend it with the new references, and write it back as a direct
array on the page dictionary; a page object that is not a dictionary is
silently left alone. -/
def linkAnnots (doc : Document) (page_id : ObjectId) (annot_refs : List Object) : Document :=
  match doc.get_object page_id with
  | some (.Dictionary page_dict) =>
    let existing_annots : List Object :=
      match dictGet page_dict "Annots" with
      | some (.Reference annots_ref) =>
        match doc.get_object annots_ref with
        | some (.Array arr) => arr
        | _ => []
      | some (.Array arr) => arr
      | _ => []
    doc.set_object page_id
      (.Dictionary (dictSet page_dict "Annots" (.Array (existing_annots ++ annot_refs))))
  | _ => doc

/-- The encoder's outer loop over the page groups, in ascending page order:
a page number with no counterpart in the page map aborts the whole call with
`InvalidPage` (before anything is serialized); `pagesMap` is the snapshot of
`get_pages` taken before the loop. -/
def processGroups (doc : Document) (pagesMap : List (Nat × ObjectId)) (now : String) :
    List (Nat × List AnnotationData) → Except AnnotationError Document
  | [] => .ok doc
  | (page_num, annots) :: rest =>
    match lookupPage pagesMap (page_num + 1) with
    | none => .error (.InvalidPage page_num)
    | some page_id =>
      let (doc1, annot_refs) := createAll doc annots page_id now
      let doc2 := linkAnnots doc1 page_id annot_refs
      processGroups doc2 pagesMap now rest

/-- Source function `save_annotations`, after the source document has been
loaded: group by page, create and link the new objects in memory, then
serialize once at the end.  The returned `Document` is the serialized
output written to `dest_path`; an error return writes nothing. -/
def save_annotations (doc : Document) (dest_path : String)
    (annotations : List AnnotationData) (now : String) :
    Except AnnotationError (SaveResult × Document) := do
  let annotations_count := annotations.length
  let doc2 ← processGroups doc doc.pages now (groupByPage annotations)
  .ok ({ success := true, path := dest_path, annotations_count }, doc2)

/-- The remover's per-entry match test: the entry must be a reference whose
target is a dictionary carrying a 4-number `Rect`, and each of the four
coordinates must differ from the target by strictly less than the fixed
tolerance of 1.0, each compared independently by absolute difference.
Anything else is kept (never a match). -/
def matchesTarget (doc : Document) (rect : PdfRect) (annot_ref : Object) : Bool :=
  match annot_ref with
  | .Reference ref_id =>
    match doc.get_object ref_id with
    | some (.Dictionary annot_dict) =>
      match dictGet annot_dict "Rect" with
      | some (.Array [r0, r1, r2, r3]) =>
        match get_number r0, get_number r1, get_number r2, get_number r3 with
        | some x1, some y1, some x2, some y2 =>
          |x1 - rect.x1| < 1 ∧ |y1 - rect.y1| < 1 ∧ |x2 - rect.x2| < 1 ∧ |y2 - rect.y2| < 1
        | _, _, _, _ => false
      | _ => false
    | _ => false
  | _ => false

/-- Source function ` remove_annotation` (renamed), after the source
document has been loaded: resolve the page, read its `Annots` array in
either form, drop every entry matching the target rectangle within
tolerance (the Rust code's mutable `found` flag set inside the filter
closure is rendered as `List.any`), and serialize only when at least one
entry was dropped.  The `Option Document` is the output written to the
destination: `none` means no file was produced. -/
def remove_annot (doc : Document) (page_index : Nat) (rect : PdfRect) :
    Except AnnotationError (Bool × Option Document) :=
  match lookupPage doc.pages (page_index + 1) with
  | none => .error (.InvalidPage page_index)
  | some page_id =>
    match doc.get_object page_id with
    | some (.Dictionary page_dict) =>
      match dictGet page_dict "Annots" with
      | some annots_obj =>
        let annots_array : List Object :=
          match annots_obj with
          | .Reference annots_ref =>
            match doc.get_object annots_ref with
            | some (.Array arr) => arr
            | _ => []
          | .Array arr => arr
          | _ => []
        let found := annots_array.any (fun o => matchesTarget doc rect o)
        let filtered := annots_array.filter (fun o => ! matchesTarget doc rect o)
        if found then
          .ok (true, some (doc.set_object page_id
            (.Dictionary (dictSet page_dict "Annots" (.Array filtered)))))
        else
          .ok (false, none)
      | none => .ok (false, none)
    | _ => .ok (false, none)

/-- Source function `clear_page_annotations`, after the source document has
been loaded: resolve the page, count the entries of its `Annots` value in
either form, delete the `Annots` key from the page dictionary, and
serialize only when the count was positive.  The `Option Document` is the
output written to the destination: `none` means no file was produced. -/
def clear_page_annotations (doc : Document) (page_index : Nat) :
    Except AnnotationError (Nat × Option Document) :=
  match lookupPage doc.pages (page_index + 1) with
  | none => .error (.InvalidPage page_index)
  | some page_id =>
    match doc.get_object page_id with
    | some (.Dictionary page_dict) =>
      let count : Nat :=
        match dictGet page_dict "Annots" with
        | some (.Reference annots_ref) =>
          match doc.get_object annots_ref with
          | some (.Array arr) => arr.length
          | _ => 0
        | some (.Array arr) => arr.length
        | _ => 0
      let doc2 := doc.set_object page_id (.Dictionary (dictRemove page_dict "Annots"))
      if count > 0 then .ok (count, some doc2) else .ok (count, none)
    | _ => .ok (0, none)


/-- Spec-side accessor: the entries of a page dictionary's `Annots` value,
read in either of the two admissible forms — a direct array, or an indirect
reference to an array; anything else contributes no entries. -/
def annotsEntryList (doc : Document) (page_dict : Dict) : List Object :=
  match dictGet page_dict "Annots" with
  | some (.Reference annots_ref) =>
    match doc.get_object annots_ref with
    | some (.Array arr) => arr
    | _ => []
  | some (.Array arr) => arr
  | _ => []

/-- Spec-side match predicate of the remover, written from the spec's words:
the entry resolves (through a reference) to a dictionary whose `Rect` is an
array of exactly four numbers, each within an absolute difference of
strictly less than 1.0 of the corresponding target coordinate. -/
def specRectMatch (doc : Document) (t : PdfRect) (entry : Object) : Prop :=
  ∃ rid d r0 r1 r2 r3 x1 y1 x2 y2,
    entry = .Reference rid ∧
    doc.get_object rid = some (.Dictionary d) ∧
    dictGet d "Rect" = some (.Array [r0, r1, r2, r3]) ∧
    get_number r0 = some x1 ∧ get_number r1 = some y1 ∧
    get_number r2 = some x2 ∧ get_number r3 = some y2 ∧
    |x1 - t.x1| < 1 ∧ |y1 - t.y1| < 1 ∧ |x2 - t.x2| < 1 ∧ |y2 - t.y2| < 1

/-- Spec-side freshness discipline of a loaded document: every object number
in the store is bounded by the allocator's running maximum, so fresh ids
never collide. -/
def IdBound (doc : Document) : Prop :=
  ∀ id o, (id, o) ∈ doc.objects → id.1 ≤ doc.max_id

/-- A one-page document with no annotations (page object id (1, 0)). -/
def docOnePage : Document :=
  ⟨[((1, 0), .Dictionary [("Type", .Name "Page")])], [(1, (1, 0))], 1⟩

/-- A concrete highlight instance on page 0 with rect (10, 10, 50, 30). -/
def hl1 : AnnotationData :=
  { annotation_type := .Highlight, page := 0, rect := ⟨10, 10, 50, 30⟩,
    quad_points := [], ink_paths := [], contents := "", color := ⟨1, 23/25, 23/100⟩,
    opacity := 1/2, stroke_width := 2, id := none }

/-- A well-formed one-page document whose `Annots` entry is a direct array
of references — the first of the two forms the spec requires the decoder to
accept (and the form the encoder itself writes). -/
def docDirect : Document :=
  ⟨[((1, 0), .Dictionary [("Annots", .Array [.Reference (3, 0)])]),
    ((3, 0), .Dictionary [("Subtype", .Name "Highlight"),
      ("Rect", .Array [.Integer 10, .Integer 10, .Integer 50, .Integer 30])])],
   [(1, (1, 0))], 3⟩

/-- A one-page document whose single annotation is an Ink dictionary that
also carries a `QuadPoints` key; `Annots` is an indirect reference to the
array, the only form the decoder accepts. -/
def docInkQP : Document :=
  ⟨[((1, 0), .Dictionary [("Annots", .Reference (2, 0))]),
    ((2, 0), .Array [.Reference (3, 0)]),
    ((3, 0), .Dictionary [("Subtype", .Name "Ink"),
      ("Rect", .Array [.Integer 0, .Integer 0, .Integer 100, .Integer 100]),
      ("QuadPoints", .Array [.Integer 1, .Integer 2, .Integer 3, .Integer 4])])],
   [(1, (1, 0))], 3⟩

/-- A one-page document holding a single stored annotation whose `Rect` is
the given rectangle, with `Annots` as a direct array. -/
def singleAnnotDoc (r : PdfRect) : Document :=
  ⟨[((1, 0), .Dictionary [("Annots", .Array [.Reference (3, 0)])]),
    ((3, 0), .Dictionary [("Subtype", .Name "Highlight"),
      ("Rect", .Array [.Real r.x1, .Real r.y1, .Real r.x2, .Real r.y2])])],
   [(1, (1, 0))], 3⟩

/-- A one-page document with two stored annotations sharing the same
rectangle, plus one non-reference entry and one reference to a dictionary
with no `Rect`. -/
def twoMatchDoc : Document :=
  ⟨[((1, 0), .Dictionary
      [("Annots", .Array [.Reference (3, 0), .Null, .Reference (4, 0), .Reference (5, 0)])]),
    ((3, 0), .Dictionary [("Subtype", .Name "Highlight"),
      ("Rect", .Array [.Integer 10, .Integer 10, .Integer 50, .Integer 30])]),
    ((4, 0), .Dictionary [("Subtype", .Name "Highlight"),
      ("Rect", .Array [.Integer 10, .Integer 10, .Integer 50, .Integer 30])]),
    ((5, 0), .Dictionary [("Subtype", .Name "Text")])],
   [(1, (1, 0))], 5⟩

/-- A one-page document whose page carries three annotation entries in a
direct `Annots` array. -/
def docThreeAnnots : Document :=
  ⟨[((1, 0), .Dictionary [("Annots", .Array [.Reference (3, 0), .Reference (4, 0), .Null])]),
    ((3, 0), .Dictionary [("Subtype", .Name "Text")]),
    ((4, 0), .Dictionary [("Subtype", .Name "Text")])],
   [(1, (1, 0))], 4⟩

/-- A two-page document: page 1 has an indirect-reference `Annots` array
holding one existing entry, page 2 has none. -/
def docTwoPages : Document :=
  ⟨[((1, 0), .Dictionary [("Annots", .Reference (10, 0))]),
    ((2, 0), .Dictionary [("Type", .Name "Page")]),
    ((10, 0), .Array [.Reference (11, 0)]),
    ((11, 0), .Dictionary [("Subtype", .Name "Text")])],
   [(1, (1, 0)), (2, (2, 0))], 11⟩

/-- A one-page document whose page object id resolves to a non-dictionary
object. -/
def docNonDictPage : Document :=
  ⟨[((1, 0), .Integer 7)], [(1, (1, 0))], 1⟩

/-- A concrete text comment instance on page 0. -/
def txt1 : AnnotationData :=
  { annotation_type := .Text, page := 0, rect := ⟨1, 2, 3, 4⟩,
    quad_points := [], ink_paths := [], contents := "note", color := ⟨1, 0, 0⟩,
    opacity := 1, stroke_width := 2, id := none }

/-- A concrete highlight instance targeting page 7 (absent from the
one-page documents). -/
def hlPage7 : AnnotationData :=
  { annotation_type := .Highlight, page := 7, rect := ⟨10, 10, 50, 30⟩,
    quad_points := [], ink_paths := [], contents := "", color := ⟨1, 0, 0⟩,
    opacity := 1, stroke_width := 2, id := none }

/-- A concrete text comment instance targeting page 1. -/
def txtPage1 : AnnotationData :=
  { annotation_type := .Text, page := 1, rect := ⟨1, 2, 3, 4⟩,
    quad_points := [], ink_paths := [], contents := "p1", color := ⟨1, 0, 0⟩,
    opacity := 1, stroke_width := 2, id := none }

/-! Helper lemmas about the scalar model. -/

theorem log2fuel_bounds (fuel : Nat) : ∀ n, 1 ≤ n → n ≤ fuel →
    2 ^ log2fuel fuel n ≤ n ∧ n < 2 ^ (log2fuel fuel n + 1) := by
  induction fuel with
  | zero => intro n h1 h2; omega
  | succ fuel ih =>
    intro n h1 h2
    by_cases h : 2 ≤ n
    · have hdiv1 : 1 ≤ n / 2 := Nat.one_le_div_iff (by omega) |>.mpr h
      have hdivf : n / 2 ≤ fuel := by
        have := Nat.div_le_self n 2
        have := Nat.div_lt_self (by omega : 0 < n) (by omega : 1 < 2)
        omega
      obtain ⟨hl, hr⟩ := ih (n / 2) hdiv1 hdivf
      have hmod := Nat.div_add_mod n 2
      have hmlt : n % 2 < 2 := Nat.mod_lt _ (by omega)
      simp only [log2fuel, if_pos h]
      constructor
      · calc 2 ^ (log2fuel fuel (n / 2) + 1) = 2 * 2 ^ log2fuel fuel (n / 2) := by ring
        _ ≤ 2 * (n / 2) := by omega
        _ ≤ n := by omega
      · calc n = 2 * (n / 2) + n % 2 := by omega
        _ < 2 * 2 ^ (log2fuel fuel (n / 2) + 1) := by omega
        _ = 2 ^ (log2fuel fuel (n / 2) + 1 + 1) := by ring
    · have hn : n = 1 := by omega
      subst hn
      simp [log2fuel, h]

theorem natLog2_bounds (n : Nat) (h : 1 ≤ n) :
    2 ^ natLog2 n ≤ n ∧ n < 2 ^ (natLog2 n + 1) :=
  log2fuel_bounds n n h le_rfl

theorem pow2z_eq (e : Int) : pow2z e = (2 : ℚ) ^ e := by
  unfold pow2z
  by_cases h : 0 ≤ e
  · rw [if_pos h, ← zpow_natCast, Int.toNat_of_nonneg h]
  · rw [if_neg h, one_div, ← zpow_natCast, Int.toNat_of_nonneg (by omega : (0:Int) ≤ -e),
      ← zpow_neg, neg_neg]

theorem pow2z_pos (e : Int) : 0 < pow2z e := by
  rw [pow2z_eq]; exact zpow_pos (by norm_num) e

theorem pow2z_add (a b : Int) : pow2z (a + b) = pow2z a * pow2z b := by
  rw [pow2z_eq, pow2z_eq, pow2z_eq, zpow_add₀ (by norm_num : (2:ℚ) ≠ 0)]

theorem binExp_le (m : ℚ) (hm : 0 < m) : pow2z (binExp m) ≤ m := by
  unfold binExp
  by_cases h : pow2z ((natLog2 m.num.natAbs : Int) - (natLog2 m.den : Int)) ≤ m
  · rw [if_pos h]; exact h
  · simp only [h, if_false]
    have hnum : 1 ≤ m.num.natAbs := by
      have := Rat.num_pos.mpr hm
      omega
    have hden : 1 ≤ m.den := m.pos
    obtain ⟨ha, _⟩ := natLog2_bounds m.num.natAbs hnum
    obtain ⟨_, hb⟩ := natLog2_bounds m.den hden
    have hrepr : ((m.num.natAbs : ℚ)) / (m.den : ℚ) = m := by
      rw [Int.cast_natAbs]
      rw [abs_of_nonneg (by exact_mod_cast (Rat.num_pos.mpr hm).le)]
      exact Rat.num_div_den m
    have hcast1 : (2:ℚ) ^ ((natLog2 m.num.natAbs : Int)) ≤ (m.num.natAbs : ℚ) := by
      exact_mod_cast ha
    have hcast2 : (m.den : ℚ) ≤ (2:ℚ) ^ ((natLog2 m.den : Int) + 1) := by
      have : (m.den : ℚ) < (2:ℚ) ^ ((natLog2 m.den : Int) + 1) := by exact_mod_cast hb
      linarith
    have hstep : (2:ℚ) ^ (natLog2 m.num.natAbs : Int) / (2:ℚ) ^ ((natLog2 m.den : Int) + 1) ≤
        ((m.num.natAbs : ℚ)) / (m.den : ℚ) :=
      div_le_div₀ (by positivity) hcast1 (by exact_mod_cast m.pos) hcast2
    rw [pow2z_eq]
    calc (2:ℚ) ^ ((natLog2 m.num.natAbs : Int) - (natLog2 m.den : Int) - 1)
        = (2:ℚ) ^ (natLog2 m.num.natAbs : Int) / (2:ℚ) ^ ((natLog2 m.den : Int) + 1) := by
          rw [← zpow_sub₀ (by norm_num : (2:ℚ) ≠ 0)]
          ring_nf
      _ ≤ ((m.num.natAbs : ℚ)) / (m.den : ℚ) := hstep
      _ = m := hrepr

theorem roundHalfEven_intCast (j : Int) : roundHalfEven (j : ℚ) = j := by
  simp [roundHalfEven]

theorem f32round_of_int_scaled (q : ℚ) (hq : q ≠ 0) (j : Int)
    (hj : |q| * pow2z (23 - max (binExp |q|) (-126)) = (j : ℚ)) : f32round q = q := by
  unfold f32round
  rw [if_neg hq]
  show (if q < 0 then (-1:ℚ) else 1) *
      ((roundHalfEven (|q| * pow2z (23 - max (binExp |q|) (-126))) : Int) : ℚ) *
      pow2z (max (binExp |q|) (-126) - 23) = q
  rw [hj, roundHalfEven_intCast, ← hj, mul_assoc, mul_assoc, ← pow2z_add]
  have he0 : (23 - max (binExp |q|) (-126)) + (max (binExp |q|) (-126) - 23) = 0 := by ring
  rw [he0]
  show (if q < 0 then (-1:ℚ) else 1) * (|q| * pow2z 0) = q
  have h1 : pow2z 0 = 1 := by rw [pow2z_eq]; simp
  rw [h1, mul_one]
  by_cases hsgn : q < 0
  · rw [if_pos hsgn, abs_of_neg hsgn]; ring
  · rw [if_neg hsgn, abs_of_nonneg (not_lt.mp hsgn)]; ring

/-- Any nonzero dyadic rational `n / 2 ^ k` with `|n| < 2 ^ 24` and
`k ≤ 149` is exactly representable in single precision, so the `as f32`
narrowing is the identity on it.  This covers every concrete coordinate
used in the statements below. -/
theorem f32round_eq_self (n : Int) (k : Nat) (hn : n ≠ 0) (hsmall : |n| < 2 ^ 24)
    (hk : (k : Int) ≤ 149) : f32round ((n : ℚ) / 2 ^ k) = (n : ℚ) / 2 ^ k := by
  have h2k : (0:ℚ) < 2 ^ k := by positivity
  have hq : ((n : ℚ) / 2 ^ k) ≠ 0 :=
    div_ne_zero (by exact_mod_cast hn) (ne_of_gt h2k)
  have habs : |(n : ℚ) / 2 ^ k| = (|n| : ℚ) / 2 ^ k := by
    rw [abs_div, abs_of_pos h2k]
  have hmpos : (0:ℚ) < (|n| : ℚ) / 2 ^ k := by
    apply div_pos _ h2k
    exact_mod_cast abs_pos.mpr hn
  have hble : binExp ((|n| : ℚ) / 2 ^ k) ≤ 23 - (k : Int) := by
    have h1 : pow2z (binExp ((|n| : ℚ) / 2 ^ k)) ≤ (|n| : ℚ) / 2 ^ k := binExp_le _ hmpos
    have h2 : (|n| : ℚ) / 2 ^ k < (2:ℚ) ^ ((24 : Int) - k) := by
      rw [zpow_sub₀ (by norm_num : (2:ℚ) ≠ 0), zpow_natCast]
      apply div_lt_div_of_pos_right _ h2k
      exact_mod_cast hsmall
    rw [pow2z_eq] at h1
    have h3 := lt_of_le_of_lt h1 h2
    have h4 := (zpow_lt_zpow_iff_right₀ (by norm_num : (1:ℚ) < 2)).mp h3
    omega
  have hexp : (0 : Int) ≤ 23 - max (binExp ((|n| : ℚ) / 2 ^ k)) (-126) - k := by
    rcases max_cases (binExp ((|n| : ℚ) / 2 ^ k)) (-126) with ⟨hc, _⟩ | ⟨hc, _⟩ <;> omega
  apply f32round_of_int_scaled _ hq (|n| * 2 ^ (23 - max (binExp ((|n| : ℚ) / 2 ^ k)) (-126) - (k:Int)).toNat)
  rw [habs]
  push_cast
  rw [div_mul_eq_mul_div, pow2z_eq, ← zpow_natCast (2:ℚ) ((23 - max (binExp ((|n| : ℚ) / 2 ^ k)) (-126) - (k:Int)).toNat),
    Int.toNat_of_nonneg hexp, div_eq_iff (ne_of_gt h2k), mul_assoc,
    ← zpow_natCast (2:ℚ) k, ← zpow_add₀ (by norm_num : (2:ℚ) ≠ 0)]
  ring_nf

/-! Structural lemmas about the graph operations. -/

theorem dictGet_dictRemove_self (d : Dict) (k : String) : dictGet (dictRemove d k) k = none := by
  induction d with
  | nil => rfl
  | cons p rest ih =>
    obtain ⟨k', v'⟩ := p
    by_cases h : k' = k
    · simpa [dictRemove, h] using ih
    · simpa [dictRemove, dictGet, h] using ih

theorem lookupId_append_left (os os' : List (ObjectId × Object)) (id : ObjectId) (o : Object)
    (h : lookupId os id = some o) : lookupId (os ++ os') id = some o := by
  induction os with
  | nil => simp [lookupId] at h
  | cons p rest ih =>
    obtain ⟨id', o'⟩ := p
    by_cases he : id' = id
    · simp_all [lookupId]
    · simp only [lookupId, if_neg he] at h
      simpa [lookupId, he] using ih h

theorem lookupId_mem (os : List (ObjectId × Object)) (id : ObjectId) (o : Object)
    (h : lookupId os id = some o) : (id, o) ∈ os := by
  induction os with
  | nil => simp [lookupId] at h
  | cons p rest ih =>
    obtain ⟨id', o'⟩ := p
    by_cases he : id' = id
    · simp only [lookupId, if_pos he] at h
      simp [he, ← Option.some_inj.mp h]
    · simp only [lookupId, if_neg he] at h
      simp [ih h]

theorem mem_storeSet (os : List (ObjectId × Object)) (i z : ObjectId) (o w : Object)
    (h : (z, w) ∈ storeSet os i o) : (z = i ∧ w = o) ∨ (z, w) ∈ os := by
  induction os with
  | nil => simp [storeSet] at h; simp [h]
  | cons p rest ih =>
    obtain ⟨id', o'⟩ := p
    by_cases he : id' = i
    · simp only [storeSet, if_pos he] at h
      rcases List.mem_cons.mp h with h1 | h1
      · left; exact ⟨congrArg Prod.fst h1, congrArg Prod.snd h1⟩
      · right; exact List.mem_cons_of_mem _ h1
    · simp only [storeSet, if_neg he] at h
      rcases List.mem_cons.mp h with h1 | h1
      · right; exact List.mem_cons.mpr (Or.inl h1)
      · rcases ih h1 with h2 | h2
        · left; exact h2
        · right; exact List.mem_cons_of_mem _ h2

theorem get_object_set_object_self (doc : Document) (i : ObjectId) (o : Object) :
    (doc.set_object i o).get_object i = some o := by
  show lookupId (storeSet doc.objects i o) i = some o
  induction doc.objects with
  | nil => simp [storeSet, lookupId]
  | cons p rest ih =>
    obtain ⟨id', o'⟩ := p
    by_cases he : id' = i
    · simp [storeSet, he, lookupId]
    · simpa [storeSet, he, lookupId] using ih

theorem get_object_set_object_ne (doc : Document) (i z : ObjectId) (o : Object) (h : z ≠ i) :
    (doc.set_object i o).get_object z = doc.get_object z := by
  have hne : i ≠ z := fun he => h he.symm
  show lookupId (storeSet doc.objects i o) z = lookupId doc.objects z
  induction doc.objects with
  | nil => simp [storeSet, lookupId, hne]
  | cons p rest ih =>
    obtain ⟨id', o'⟩ := p
    by_cases he : id' = i
    · subst he
      simp [storeSet, lookupId, hne]
    · simp [storeSet, he, lookupId, ih]

theorem get_object_add_object (doc : Document) (o' : Object) (z : ObjectId) (o : Object)
    (h : doc.get_object z = some o) : ((doc.add_object o').1).get_object z = some o :=
  lookupId_append_left doc.objects _ z o h

theorem add_object_pages (doc : Document) (o : Object) : (doc.add_object o).1.pages = doc.pages :=
  rfl

theorem set_object_pages (doc : Document) (i : ObjectId) (o : Object) :
    (doc.set_object i o).pages = doc.pages :=
  rfl

theorem IdBound_add_object (doc : Document) (o : Object) (h : IdBound doc) :
    IdBound (doc.add_object o).1 := by
  intro id w hm
  show id.1 ≤ doc.max_id + 1
  rcases List.mem_append.mp hm with h1 | h1
  · exact le_trans (h id w h1) (Nat.le_succ _)
  · simp at h1
    simp [h1.1]

theorem IdBound_set_object (doc : Document) (i : ObjectId) (o o' : Object)
    (hp : doc.get_object i = some o') (h : IdBound doc) : IdBound (doc.set_object i o) := by
  intro id w hm
  rcases mem_storeSet doc.objects i id o w hm with ⟨h1, _⟩ | h1
  · rw [h1]
    exact h i o' (lookupId_mem _ _ _ hp)
  · exact h id w h1

/-! Claim theorems. -/

/-- C1: the round-trip claim fails on the code.  Saving one well-formed
highlight into a one-page document succeeds, but decoding the saved output
does not yield the instance back: it fails outright with
`AnnotationFailed`, because the encoder writes the page's `Annots` back as
a direct array while the decoder insists on an indirect reference
(`get_object_id` applied with the `?` operator). -/
theorem c1_roundtrip_fails_after_save :
    ∃ r doc2, save_annotations docOnePage "out" [hl1] "D:20250101000000Z" = .ok (r, doc2) ∧
      get_annotations doc2 = .error (.AnnotationFailed "Expected object reference") :=
  ⟨_, _, rfl, rfl⟩

/-- C2: the claim that a direct-array `Annots` entry is read correctly and
that `get_annotations` returns `Ok` for every loadable document fails on
the code: on a well-formed document whose page stores its `Annots` as a
direct array of references, the whole call returns the
`AnnotationFailed` error instead of reading the annotation. -/
theorem c2_direct_array_fails :
    get_annotations docDirect = .error (.AnnotationFailed "Expected object reference") := rfl

/-- C9 (counterexample): an Ink annotation whose stored dictionary carries a
`QuadPoints` key decodes to an instance with non-empty `quad_points`, so
quad points are not decoded only for markup types. -/
theorem c9_counterexample_thm :
    ∃ a, get_annotations docInkQP = .ok [a] ∧ a.annotation_type = .Ink ∧ a.quad_points ≠ [] := by
  refine ⟨_, rfl, rfl, by
    simp [parse_annot, parseAnnotDict, readQuadPoints, readSubtype, readRect, mapSubtype,
      dictGet, parsePointPairs, get_number]⟩

/-- C9 (amended): the decoder reads `QuadPoints` for every supported
annotation type, not only markup types; an instance's `quad_points` equals
whatever the field reader finds in the dictionary, and in particular it is
empty whenever the stored dictionary has no `QuadPoints` entry. -/
theorem c9_amended_thm (dict : Dict) (p : Nat) (a : AnnotationData)
    (h : parse_annot (.Dictionary dict) p = some a) :
    a.quad_points = readQuadPoints dict ∧
    (dictGet dict "QuadPoints" = none → a.quad_points = []) := by
  simp only [parse_annot, parseAnnotDict] at h
  split at h
  · exact absurd h (by simp)
  split at h
  · exact absurd h (by simp)
  split at h
  · exact absurd h (by simp)
  obtain rfl := Option.some_inj.mp h
  refine ⟨rfl, fun hg => ?_⟩
  simp [readQuadPoints, hg]

/-- C9 (witness): a concrete Ink dictionary with no `QuadPoints` key parses
to an instance with empty `quad_points`. -/
theorem c9_amended_witness :
    ∃ a, parse_annot (.Dictionary [("Subtype", Object.Name "Ink"),
      ("Rect", Object.Array [.Integer 0, .Integer 0, .Integer 1, .Integer 1])]) 0 = some a ∧
      a.quad_points = [] := by
  obtain ⟨a, ha⟩ : ∃ a, parse_annot (.Dictionary [("Subtype", Object.Name "Ink"),
      ("Rect", Object.Array [.Integer 0, .Integer 0, .Integer 1, .Integer 1])]) 0 = some a :=
    ⟨_, rfl⟩
  exact ⟨a, ha, (c9_amended_thm _ 0 a ha).2 rfl⟩

/-- C4: the remover deletes a stored annotation exactly when each of the
four `Rect` coordinates differs from the target by strictly less than 1.0,
each compared independently by absolute difference: all four strictly
within tolerance removes (and serializes), any coordinate at 1.0 or more
apart leaves the annotation in place (and writes nothing). -/
theorem c4_tolerance_boundary (r t : PdfRect) :
    ((|r.x1 - t.x1| < 1 ∧ |r.y1 - t.y1| < 1 ∧ |r.x2 - t.x2| < 1 ∧ |r.y2 - t.y2| < 1) →
      ∃ d2, remove_annot (singleAnnotDoc r) 0 t = .ok (true, some d2)) ∧
    ((1 ≤ |r.x1 - t.x1| ∨ 1 ≤ |r.y1 - t.y1| ∨ 1 ≤ |r.x2 - t.x2| ∨ 1 ≤ |r.y2 - t.y2|) →
      remove_annot (singleAnnotDoc r) 0 t = .ok (false, none)) := by
  have hm : matchesTarget (singleAnnotDoc r) t (.Reference (3, 0)) =
      decide (|r.x1 - t.x1| < 1 ∧ |r.y1 - t.y1| < 1 ∧ |r.x2 - t.x2| < 1 ∧ |r.y2 - t.y2| < 1) :=
    rfl
  have heq : remove_annot (singleAnnotDoc r) 0 t =
      if (matchesTarget (singleAnnotDoc r) t (.Reference (3, 0)) || false) = true
      then .ok (true, some ((singleAnnotDoc r).set_object (1, 0)
        (.Dictionary (dictSet [("Annots", .Array [.Reference (3, 0)])] "Annots"
          (.Array (List.filter (fun o => ! matchesTarget (singleAnnotDoc r) t o)
            [.Reference (3, 0)]))))))
      else .ok (false, none) := rfl
  constructor
  · intro h
    have hmt : matchesTarget (singleAnnotDoc r) t (.Reference (3, 0)) = true := by
      rw [hm]; exact decide_eq_true h
    exact ⟨_, by rw [heq, hmt]; rfl⟩
  · intro h
    have hmf : matchesTarget (singleAnnotDoc r) t (.Reference (3, 0)) = false := by
      rw [hm]
      apply decide_eq_false
      rintro ⟨a, b, c, d⟩
      rcases h with h | h | h | h <;> linarith
    rw [heq, hmf]
    rfl

/-- C4 (witness): the stored rect (10,10,50,30) is removed by a request
offset by exactly 0.999 on every coordinate, and is not removed by one
offset by exactly 1.0 on one coordinate. -/
theorem c4_witness :
    (∃ d2, remove_annot (singleAnnotDoc ⟨10, 10, 50, 30⟩) 0
      ⟨10999/1000, 10999/1000, 50999/1000, 30999/1000⟩ = .ok (true, some d2)) ∧
    remove_annot (singleAnnotDoc ⟨10, 10, 50, 30⟩) 0 ⟨11, 10, 50, 30⟩ = .ok (false, none) := by
  constructor
  · exact (c4_tolerance_boundary ⟨10, 10, 50, 30⟩ _).1 (by norm_num [abs_lt])
  · exact (c4_tolerance_boundary ⟨10, 10, 50, 30⟩ _).2 (Or.inl (by
      rw [show (10 : ℚ) - 11 = -1 by norm_num, abs_neg, abs_one]))

/-- C7: clearing a valid page returns the number of entries of the page's
`Annots` value — read in either direct-array or indirect-reference form —
deletes the `Annots` key from the page dictionary entirely, and serializes
to the destination exactly when that count was positive; clearing an
already-empty page returns 0 and produces no destination file. -/
theorem c7_clear_semantics (doc : Document) (p : Nat) (pid : ObjectId) (pd : Dict)
    (h1 : lookupPage doc.pages (p + 1) = some pid)
    (h2 : doc.get_object pid = some (.Dictionary pd)) :
    (0 < (annotsEntryList doc pd).length →
      clear_page_annotations doc p = .ok ((annotsEntryList doc pd).length,
        some (doc.set_object pid (.Dictionary (dictRemove pd "Annots")))) ∧
      (doc.set_object pid (.Dictionary (dictRemove pd "Annots"))).get_object pid =
        some (.Dictionary (dictRemove pd "Annots")) ∧
      dictGet (dictRemove pd "Annots") "Annots" = none) ∧
    ((annotsEntryList doc pd).length = 0 →
      clear_page_annotations doc p = .ok (0, none)) := by
  have hself := get_object_set_object_self doc pid (.Dictionary (dictRemove pd "Annots"))
  have hrem := dictGet_dictRemove_self pd "Annots"
  simp only [clear_page_annotations, h1, h2, annotsEntryList]
  rcases hget : dictGet pd "Annots" with _ | o
  · simp [hget, hself, hrem]
  rcases o with _ | b | i | q | s | s | arr | d | rid
  case Array =>
    simp only [hget]
    constructor
    · intro hn
      rw [if_pos hn]
      exact ⟨rfl, hself, hrem⟩
    · intro hn
      rw [hn]
      simp
  case Reference =>
    simp only [hget]
    rcases hobj : doc.get_object rid with _ | w
    · simp [hobj, hself, hrem]
    rcases w with _ | b | i | q | s | s | arr | d | rid2
    case Array =>
      simp only [hobj]
      constructor
      · intro hn
        rw [if_pos hn]
        exact ⟨rfl, hself, hrem⟩
      · intro hn
        rw [hn]
        simp
    all_goals simp [hobj, hself, hrem]
  all_goals simp [hget, hself, hrem]

/-- C7 (witness): clearing a page with three entries returns 3 and leaves
the page dictionary without an `Annots` key; clearing a page with none
returns 0 and writes nothing. -/
theorem c7_witness :
    (clear_page_annotations docThreeAnnots 0 = .ok (3,
      some (docThreeAnnots.set_object (1, 0) (.Dictionary []))) ∧
     (docThreeAnnots.set_object (1, 0) (.Dictionary [])).get_object (1, 0) =
       some (.Dictionary []) ∧ dictGet ([] : Dict) "Annots" = none) ∧
    clear_page_annotations docOnePage 0 = .ok (0, none) := by
  constructor
  · exact (c7_clear_semantics docThreeAnnots 0 (1, 0)
      [("Annots", .Array [.Reference (3, 0), .Reference (4, 0), .Null])] rfl rfl).1 (by decide)
  · exact (c7_clear_semantics docOnePage 0 (1, 0) [("Type", .Name "Page")] rfl rfl).2 rfl

/-- The remover's boolean match test agrees exactly with the spec's match
description: a reference resolving to a dictionary with a 4-number `Rect`
within the per-coordinate tolerance, and nothing else, matches. -/
theorem matchesTarget_iff (doc : Document) (t : PdfRect) (e : Object) :
    matchesTarget doc t e = true ↔ specRectMatch doc t e := by
  constructor
  · intro h
    unfold matchesTarget at h
    split at h
    case _ rid =>
      split at h
      case _ dd hobj =>
        split at h
        case _ r0 r1 r2 r3 hrect =>
          split at h
          case _ x1 y1 x2 y2 hn0 hn1 hn2 hn3 =>
            obtain ⟨c1, c2, c3, c4⟩ := of_decide_eq_true h
            exact ⟨rid, dd, r0, r1, r2, r3, x1, y1, x2, y2, rfl, hobj, hrect,
              hn0, hn1, hn2, hn3, c1, c2, c3, c4⟩
          case _ => simp at h
        case _ => simp at h
      case _ => simp at h
    case _ => simp at h
  · rintro ⟨rid, dd, r0, r1, r2, r3, x1, y1, x2, y2, rfl, hobj, hrect,
      hn0, hn1, hn2, hn3, c1, c2, c3, c4⟩
    simp only [matchesTarget, hobj, hrect, hn0, hn1, hn2, hn3]
    exact decide_eq_true ⟨c1, c2, c3, c4⟩

/-- C5: in one remove call on a page whose `Annots` is an array, an entry
is removed exactly when it resolves through a reference to a dictionary
with a valid 4-number `Rect` within tolerance of the target (entries that
do not are kept unconditionally); when at least one entry matches, all
matching entries are filtered out in one call and the document is
serialized; when none match, the call returns false and no output is
produced. -/
theorem c5_remove_all_matches (doc : Document) (p : Nat) (t : PdfRect)
    (pid : ObjectId) (pd : Dict) (arr : List Object)
    (h1 : lookupPage doc.pages (p + 1) = some pid)
    (h2 : doc.get_object pid = some (.Dictionary pd))
    (h3 : dictGet pd "Annots" = some (.Array arr)) :
    (∀ e, matchesTarget doc t e = true ↔ specRectMatch doc t e) ∧
    ((∃ e ∈ arr, specRectMatch doc t e) →
      remove_annot doc p t = .ok (true, some (doc.set_object pid (.Dictionary
        (dictSet pd "Annots" (.Array (arr.filter (fun e => ! matchesTarget doc t e)))))))) ∧
    ((∀ e ∈ arr, ¬ specRectMatch doc t e) →
      remove_annot doc p t = .ok (false, none)) := by
  have hiff := fun e => matchesTarget_iff doc t e
  refine ⟨hiff, ?_, ?_⟩
  · intro hex
    have hfound : (arr.any fun o => matchesTarget doc t o) = true := by
      rw [List.any_eq_true]
      obtain ⟨e, he, hs⟩ := hex
      exact ⟨e, he, (hiff e).mpr hs⟩
    simp only [remove_annot, h1, h2, h3, hfound, if_true]
  · intro hall
    have hf : (arr.any fun o => matchesTarget doc t o) = false := by
      rw [List.any_eq_false]
      intro e he hm
      exact hall e he ((hiff e).mp hm)
    simp only [remove_annot, h1, h2, h3, hf]
    simp

/-- C5 (witness): two stored annotations with the same rect are both
removed in one call (the reported flag is true), while a non-reference
entry and a reference without a `Rect` are kept. -/
theorem c5_witness :
    remove_annot twoMatchDoc 0 ⟨10, 10, 50, 30⟩ = .ok (true,
      some (twoMatchDoc.set_object (1, 0)
        (.Dictionary [("Annots", .Array [.Null, .Reference (5, 0)])]))) := by
  have h := c5_remove_all_matches twoMatchDoc 0 ⟨10, 10, 50, 30⟩ (1, 0)
      [("Annots", .Array [.Reference (3, 0), .Null, .Reference (4, 0), .Reference (5, 0)])]
      [.Reference (3, 0), .Null, .Reference (4, 0), .Reference (5, 0)] rfl rfl rfl
  have hspec3 : specRectMatch twoMatchDoc ⟨10, 10, 50, 30⟩ (.Reference (3, 0)) :=
    ⟨(3, 0), _, _, _, _, _, ((10 : Int) : ℚ), ((10 : Int) : ℚ), ((50 : Int) : ℚ),
      ((30 : Int) : ℚ), rfl, rfl, rfl, rfl, rfl, rfl, rfl,
      by norm_num, by norm_num, by norm_num, by norm_num⟩
  have hspec4 : specRectMatch twoMatchDoc ⟨10, 10, 50, 30⟩ (.Reference (4, 0)) :=
    ⟨(4, 0), _, _, _, _, _, ((10 : Int) : ℚ), ((10 : Int) : ℚ), ((50 : Int) : ℚ),
      ((30 : Int) : ℚ), rfl, rfl, rfl, rfl, rfl, rfl, rfl,
      by norm_num, by norm_num, by norm_num, by norm_num⟩
  have heq := h.2.1 ⟨.Reference (3, 0), by simp, hspec3⟩
  rw [heq]
  have hm3 : matchesTarget twoMatchDoc ⟨10, 10, 50, 30⟩ (.Reference (3, 0)) = true :=
    (h.1 _).mpr hspec3
  have hm4 : matchesTarget twoMatchDoc ⟨10, 10, 50, 30⟩ (.Reference (4, 0)) = true :=
    (h.1 _).mpr hspec4
  have hmN : matchesTarget twoMatchDoc ⟨10, 10, 50, 30⟩ Object.Null = false := rfl
  have hm5 : matchesTarget twoMatchDoc ⟨10, 10, 50, 30⟩ (.Reference (5, 0)) = false := rfl
  simp [List.filter, hm3, hm4, hmN, hm5, dictSet]

/-- A key is present after one grouping insertion exactly when it was
present before or is the inserted instance's page. -/
theorem insertByPage_key_iff (m : List (Nat × List AnnotationData)) (a : AnnotationData)
    (k : Nat) :
    (∃ v, (k, v) ∈ insertByPage m a) ↔ (k = a.page ∨ ∃ v, (k, v) ∈ m) := by
  induction m with
  | nil => simp [insertByPage]
  | cons p rest ih =>
    obtain ⟨k0, v0⟩ := p
    by_cases h1 : a.page = k0
    · subst h1
      simp only [insertByPage, if_pos rfl]
      constructor
      · rintro ⟨v, hv⟩
        rcases List.mem_cons.mp hv with he | he
        · exact Or.inl (Prod.ext_iff.mp he).1
        · exact Or.inr ⟨v, List.mem_cons_of_mem _ he⟩
      · rintro (h | ⟨v, hv⟩)
        · subst h
          exact ⟨v0 ++ [a], List.mem_cons_self _ _⟩
        · rcases List.mem_cons.mp hv with he | he
          · have hk : k = a.page := (Prod.ext_iff.mp he).1
            rw [hk]
            exact ⟨v0 ++ [a], List.mem_cons_self _ _⟩
          · exact ⟨v, List.mem_cons_of_mem _ he⟩
    · by_cases h2 : a.page < k0
      · simp only [insertByPage, if_neg h1, if_pos h2]
        constructor
        · rintro ⟨v, hv⟩
          rcases List.mem_cons.mp hv with he | he
          · exact Or.inl (Prod.ext_iff.mp he).1
          · exact Or.inr ⟨v, he⟩
        · rintro (h | ⟨v, hv⟩)
          · subst h
            exact ⟨[a], List.mem_cons_self _ _⟩
          · exact ⟨v, List.mem_cons_of_mem _ hv⟩
      · simp only [insertByPage, if_neg h1, if_neg h2]
        simp only [List.mem_cons]
        constructor
        · rintro ⟨v, hv | hv⟩
          · right; exact ⟨v, Or.inl hv⟩
          · rcases ih.mp ⟨v, hv⟩ with h | ⟨w, hw⟩
            · left; exact h
            · right; exact ⟨w, Or.inr hw⟩
        · rintro (h | ⟨v, hv | hv⟩)
          · obtain ⟨v, hv⟩ := ih.mpr (Or.inl h)
            exact ⟨v, Or.inr hv⟩
          · exact ⟨v, Or.inl hv⟩
          · obtain ⟨w, hw⟩ := ih.mpr (Or.inr ⟨v, hv⟩)
            exact ⟨w, Or.inr hw⟩

/-- Keys of the grouping fold: present exactly when in the accumulator or
the page of some remaining instance. -/
theorem foldl_insertByPage_key_iff (l : List AnnotationData) :
    ∀ acc k, (∃ v, (k, v) ∈ l.foldl insertByPage acc) ↔
      ((∃ v, (k, v) ∈ acc) ∨ ∃ a ∈ l, a.page = k) := by
  induction l with
  | nil => simp
  | cons a rest ih =>
    intro acc k
    simp only [List.foldl_cons]
    rw [ih, insertByPage_key_iff]
    simp only [List.mem_cons]
    constructor
    · rintro ((h | h) | h)
      · exact Or.inr ⟨a, Or.inl rfl, h.symm⟩
      · exact Or.inl h
      · obtain ⟨b, hb, hbp⟩ := h
        exact Or.inr ⟨b, Or.inr hb, hbp⟩
    · rintro (h | ⟨b, hb | hb, hbp⟩)
      · exact Or.inl (Or.inr h)
      · subst hb
        exact Or.inl (Or.inl hbp.symm)
      · exact Or.inr ⟨b, hb, hbp⟩

/-- The groups of `groupByPage` carry exactly the pages of the input. -/
theorem groupByPage_key_iff (l : List AnnotationData) (k : Nat) :
    (∃ v, (k, v) ∈ groupByPage l) ↔ ∃ a ∈ l, a.page = k := by
  unfold groupByPage
  rw [foldl_insertByPage_key_iff]
  simp

/-- When some group's page has no counterpart in the page map, the encoder
loop aborts with `InvalidPage` carrying such a page. -/
theorem processGroups_error_of_missing (pm : List (Nat × ObjectId)) (now : String)
    (gs : List (Nat × List AnnotationData)) :
    ∀ doc : Document, (∃ k as, (k, as) ∈ gs ∧ lookupPage pm (k + 1) = none) →
      ∃ q, processGroups doc pm now gs = .error (.InvalidPage q) ∧
        lookupPage pm (q + 1) = none ∧ ∃ as, (q, as) ∈ gs := by
  induction gs with
  | nil => simp
  | cons g rest ih =>
    obtain ⟨k0, as0⟩ := g
    rintro doc ⟨k, as, hmem, hnone⟩
    rcases hl : lookupPage pm (k0 + 1) with _ | pid
    · exact ⟨k0, by simp [processGroups, hl], hl, as0, by simp⟩
    · have hmem' : ∃ k as, (k, as) ∈ rest ∧ lookupPage pm (k + 1) = none := by
        rcases List.mem_cons.mp hmem with he | he
        · have hk : k = k0 := (Prod.ext_iff.mp he).1
          rw [hk, hl] at hnone
          exact absurd hnone (by simp)
        · exact ⟨k, as, he, hnone⟩
      rcases hc : createAll doc as0 pid now with ⟨doc1, refs⟩
      obtain ⟨q, hq1, hq2, as2, hq3⟩ := ih (linkAnnots doc1 pid refs) hmem'
      refine ⟨q, ?_, hq2, as2, List.mem_cons_of_mem _ hq3⟩
      simp only [processGroups, hl, hc]
      exact hq1

/-- C3: a remove or clear call whose page index has no counterpart page
fails with `InvalidPage` carrying that index, and a save call holding an
instance whose page has no counterpart fails with `InvalidPage` carrying
such an offending input page; in the model an error return carries no
serialized output, so nothing is written to the destination. -/
theorem c3_invalid_page_atomicity (doc : Document) (dest now : String)
    (annotations : List AnnotationData) (p : Nat) (rect : PdfRect) :
    (lookupPage doc.pages (p + 1) = none →
      remove_annot doc p rect = .error (.InvalidPage p) ∧
      clear_page_annotations doc p = .error (.InvalidPage p)) ∧
    (∀ a ∈ annotations, lookupPage doc.pages (a.page + 1) = none →
      ∃ q, save_annotations doc dest annotations now = .error (.InvalidPage q) ∧
        lookupPage doc.pages (q + 1) = none ∧ ∃ b ∈ annotations, b.page = q) := by
  constructor
  · intro h
    exact ⟨by simp [remove_annot, h], by simp [clear_page_annotations, h]⟩
  · intro a ha hnone
    obtain ⟨as, hmem⟩ := (groupByPage_key_iff annotations a.page).mpr ⟨a, ha, rfl⟩
    obtain ⟨q, hq1, hq2, as2, hq3⟩ := processGroups_error_of_missing doc.pages now
      (groupByPage annotations) doc ⟨a.page, as, hmem, hnone⟩
    refine ⟨q, ?_, hq2, ?_⟩
    · simp only [save_annotations, hq1]
      rfl
    · exact (groupByPage_key_iff annotations q).mp ⟨as2, hq3⟩


/-- C3 (witness): on a one-page document, removing or clearing page 5 and
saving an instance targeting page 7 each fail with the matching
`InvalidPage` and produce no output. -/
theorem c3_witness :
    (remove_annot docOnePage 5 ⟨0, 0, 0, 0⟩ = .error (.InvalidPage 5) ∧
     clear_page_annotations docOnePage 5 = .error (.InvalidPage 5)) ∧
    (∃ q, save_annotations docOnePage "out" [hlPage7] "D:x" = .error (.InvalidPage q) ∧
      lookupPage docOnePage.pages (q + 1) = none ∧ ∃ b ∈ [hlPage7], b.page = q) :=
  ⟨(c3_invalid_page_atomicity docOnePage "out" "D:x" [hlPage7] 5 ⟨0, 0, 0, 0⟩).1 rfl,
   (c3_invalid_page_atomicity docOnePage "out" "D:x" [hlPage7] 5 ⟨0, 0, 0, 0⟩).2 hlPage7
     (by simp) rfl⟩

/-- The encoder's inner loop adds exactly one fresh object per instance:
it preserves the id-bound discipline, every existing object lookup, and the
page map, grows the store by the number of instances, and returns one
reference per instance in order. -/
theorem createAll_fst (as : List AnnotationData) :
    ∀ (doc : Document) (pid : ObjectId) (now : String),
      ∃ d1 refs, createAll doc as pid now = (d1, refs) ∧
        (IdBound doc → IdBound d1) ∧
        (∀ z w, doc.get_object z = some w → IdBound doc → d1.get_object z = some w) ∧
        d1.pages = doc.pages ∧
        d1.objects.length = doc.objects.length + as.length ∧
        ∃ ids : List ObjectId, refs = ids.map Object.Reference ∧ ids.length = as.length := by
  induction as with
  | nil =>
    intro doc pid now
    exact ⟨doc, [], rfl, fun hb => hb, fun z w h _ => h, rfl, by simp [createAll], [], rfl, rfl⟩
  | cons a rest ih =>
    intro doc pid now
    obtain ⟨d1, refs, hc, hb1, hget1, hpages1, hlen1, ids, hids, hlen2⟩ :=
      ih (doc.add_object (.Dictionary (typeSpecificDict a (baseAnnotDict a pid now)))).1 pid now
    refine ⟨d1, .Reference (doc.max_id + 1, 0) :: refs, ?_, ?_, ?_, ?_, ?_,
      (doc.max_id + 1, 0) :: ids, by simp [hids], by simp [hlen2]⟩
    · show (match createAll
          (doc.add_object (.Dictionary (typeSpecificDict a (baseAnnotDict a pid now)))).1
          rest pid now with
        | (doc2, refs) => (doc2, Object.Reference (doc.max_id + 1, 0) :: refs)) = _
      rw [hc]
    · intro hb
      exact hb1 (IdBound_add_object doc _ hb)
    · intro z w h hb
      exact hget1 z w (get_object_add_object doc _ z w h) (IdBound_add_object doc _ hb)
    · rw [hpages1]; rfl
    · rw [hlen1]
      have hob : (doc.add_object
          (.Dictionary (typeSpecificDict a (baseAnnotDict a pid now)))).1.objects.length =
          doc.objects.length + 1 := by
        simp [Document.add_object]
      rw [hob]
      simp [List.length_cons]
      omega

/-- Linking is a no-op on a page object that is not a dictionary. -/
theorem linkAnnots_not_dict (doc : Document) (pid : ObjectId) (refs : List Object) (o : Object)
    (hobj : doc.get_object pid = some o) (hnd : ∀ d, o ≠ .Dictionary d) :
    linkAnnots doc pid refs = doc := by
  unfold linkAnnots
  rw [hobj]
  rcases o with _ | b | i | q | s | s | arr | d | rid
  case Dictionary => exact absurd rfl (hnd d)
  all_goals rfl

/-- Linking is a no-op on a missing page object. -/
theorem linkAnnots_none (doc : Document) (pid : ObjectId) (refs : List Object)
    (hobj : doc.get_object pid = none) : linkAnnots doc pid refs = doc := by
  unfold linkAnnots
  rw [hobj]

/-- C10: every successful save reports success = true, the input list's
length as annotations_count, and the destination path; and when the single
targeted page's object resolves to a non-dictionary, the call still
serializes and reports full success while the new annotation objects are
added to the graph (the store grows by the input length) without any
existing object — in particular any page's dictionary or Annots array —
being modified. -/
theorem c10_success_report (doc : Document) (dest now : String) (annots : List AnnotationData)
    (k : Nat) (pid : ObjectId) (o : Object)
    (hb : IdBound doc)
    (hne : annots ≠ [])
    (hpg : ∀ a ∈ annots, a.page = k)
    (hlk : lookupPage doc.pages (k + 1) = some pid)
    (hobj : doc.get_object pid = some o)
    (hnd : ∀ d, o ≠ .Dictionary d) :
    (∀ (doc' : Document) (dest' now' : String) (annots' : List AnnotationData) r d2,
        save_annotations doc' dest' annots' now' = .ok (r, d2) →
        r.success = true ∧ r.annotations_count = annots'.length ∧ r.path = dest') ∧
    ∃ r d2, save_annotations doc dest annots now = .ok (r, d2) ∧
      r.success = true ∧ r.annotations_count = annots.length ∧
      (∀ z w, doc.get_object z = some w → d2.get_object z = some w) ∧
      d2.objects.length = doc.objects.length + annots.length := by
  constructor
  · intro doc2 dest2 now2 annots2 r d2 h
    rcases hp : processGroups doc2 doc2.pages now2 (groupByPage annots2) with e | d
    · simp only [save_annotations, hp] at h
      exact Except.noConfusion h
    · simp only [save_annotations, hp] at h
      have h2 : Except.ok (ε := AnnotationError)
          ((⟨true, dest2, annots2.length⟩ : SaveResult), d) = Except.ok (r, d2) := h
      have h3 := Except.ok.inj h2
      have hr : (⟨true, dest2, annots2.length⟩ : SaveResult) = r := (Prod.ext_iff.mp h3).1
      rw [← hr]
      exact ⟨rfl, rfl, rfl⟩
  · have hgroup : groupByPage annots = [(k, annots)] := by
      rcases annots with _ | ⟨a, rest⟩
      · exact absurd rfl hne
      · have ha : a.page = k := hpg a (by simp)
        have haux : ∀ (l : List AnnotationData) (v : List AnnotationData),
            (∀ b ∈ l, b.page = k) → l.foldl insertByPage [(k, v)] = [(k, v ++ l)] := by
          intro l
          induction l with
          | nil => intro v _; simp
          | cons b rest2 ih2 =>
            intro v hall
            have hbk : b.page = k := hall b (by simp)
            simp only [List.foldl_cons, insertByPage, if_pos hbk]
            rw [ih2 (v ++ [b]) (fun c hc => hall c (by simp [hc]))]
            simp
        show (a :: rest).foldl insertByPage [] = _
        simp only [List.foldl_cons, insertByPage]
        rw [ha, haux rest [a] (fun c hc => hpg c (by simp [hc]))]
        simp
    obtain ⟨d1, refs, hc, hb1, hget1, hpages1, hlen1, ids, hids, hlen2⟩ :=
      createAll_fst annots doc pid now
    have hlink : linkAnnots d1 pid refs = d1 :=
      linkAnnots_not_dict d1 pid refs o (hget1 pid o hobj hb) hnd
    have hpg2 : processGroups doc doc.pages now (groupByPage annots) = .ok d1 := by
      rw [hgroup]
      simp only [processGroups, hlk, hc, hlink]
    refine ⟨⟨true, dest, annots.length⟩, d1, ?_, rfl, rfl, ?_, ?_⟩
    · simp only [save_annotations, hpg2]
      rfl
    · intro z w h
      exact hget1 z w h hb
    · exact hlen1

/-- C10 (witness): saving one text comment into a document whose page
object is the integer 7 succeeds with count 1, leaves every existing
object unchanged, and adds one object to the graph. -/
theorem c10_witness :
    ∃ r d2, save_annotations docNonDictPage "out" [txt1] "D:x" = .ok (r, d2) ∧
      r.success = true ∧ r.annotations_count = 1 ∧
      (∀ z w, docNonDictPage.get_object z = some w → d2.get_object z = some w) ∧
      d2.objects.length = docNonDictPage.objects.length + 1 := by
  have h := (c10_success_report docNonDictPage "out" "D:x" [txt1] 0 (1, 0) (.Integer 7)
    (by
      rintro id w hm
      simp [docNonDictPage] at hm
      rw [hm.1]
      exact le_refl 1)
    (by simp)
    (by rintro a ha; simp at ha; subst ha; rfl)
    rfl rfl (by rintro d hd; cases hd)).2
  exact h

/-- Members after a grouping insertion carry the inserted page as key or
were already present. -/
theorem insertByPage_mem (m : List (Nat × List AnnotationData)) (a : AnnotationData) :
    ∀ y ∈ insertByPage m a, y.1 = a.page ∨ y ∈ m := by
  induction m with
  | nil =>
    intro y hy
    simp [insertByPage] at hy
    left
    rw [hy]
  | cons p rest ih =>
    obtain ⟨k0, v0⟩ := p
    intro y hy
    by_cases h1 : a.page = k0
    · simp only [insertByPage, if_pos h1] at hy
      rcases List.mem_cons.mp hy with rfl | hy2
      · left; exact h1.symm
      · right; exact List.mem_cons_of_mem _ hy2
    · by_cases h2 : a.page < k0
      · simp only [insertByPage, if_neg h1, if_pos h2] at hy
        rcases List.mem_cons.mp hy with rfl | hy2
        · left; rfl
        · right; exact hy2
      · simp only [insertByPage, if_neg h1, if_neg h2] at hy
        rcases List.mem_cons.mp hy with rfl | hy2
        · right; simp
        · rcases ih y hy2 with he | hm
          · left; exact he
          · right; exact List.mem_cons_of_mem _ hm

/-- Grouping insertion keeps the association list strictly ascending by
page key. -/
theorem insertByPage_pairwise (m : List (Nat × List AnnotationData)) (a : AnnotationData)
    (h : m.Pairwise (fun x y => x.1 < y.1)) :
    (insertByPage m a).Pairwise (fun x y => x.1 < y.1) := by
  induction m with
  | nil => simp [insertByPage]
  | cons p rest ih =>
    obtain ⟨k0, v0⟩ := p
    obtain ⟨hhead, htail⟩ := List.pairwise_cons.mp h
    by_cases h1 : a.page = k0
    · simp only [insertByPage, if_pos h1]
      exact List.pairwise_cons.mpr ⟨hhead, htail⟩
    · by_cases h2 : a.page < k0
      · simp only [insertByPage, if_neg h1, if_pos h2]
        refine List.pairwise_cons.mpr ⟨?_, List.pairwise_cons.mpr ⟨hhead, htail⟩⟩
        intro y hy
        rcases List.mem_cons.mp hy with rfl | hy2
        · exact h2
        · exact lt_trans h2 (hhead y hy2)
      · simp only [insertByPage, if_neg h1, if_neg h2]
        refine List.pairwise_cons.mpr ⟨?_, ih htail⟩
        intro y hy
        rcases insertByPage_mem rest a y hy with he | hm
        · rw [he]; omega
        · exact hhead y hm

/-- The groups of `groupByPage` are strictly ascending by page key, hence
keys are pairwise distinct. -/
theorem groupByPage_pairwise (l : List AnnotationData) :
    (groupByPage l).Pairwise (fun x y => x.1 < y.1) := by
  have haux : ∀ (l2 : List AnnotationData) (acc : List (Nat × List AnnotationData)),
      acc.Pairwise (fun x y => x.1 < y.1) →
      (l2.foldl insertByPage acc).Pairwise (fun x y => x.1 < y.1) := by
    intro l2
    induction l2 with
    | nil => intro acc h; exact h
    | cons a rest ih =>
      intro acc h
      exact ih _ (insertByPage_pairwise acc a h)
  exact haux l [] (by simp)

/-- Linking one page leaves every other object of the graph unchanged. -/
theorem linkAnnots_get_ne (doc : Document) (pid : ObjectId) (refs : List Object)
    (z : ObjectId) (h : z ≠ pid) :
    (linkAnnots doc pid refs).get_object z = doc.get_object z := by
  unfold linkAnnots
  rcases hg : doc.get_object pid with _ | w
  · rfl
  rcases w with _ | b | i | q | s | s | arr | d | rid
  case Dictionary => exact get_object_set_object_ne doc pid z _ h
  all_goals rfl

/-- Linking preserves the id-bound discipline. -/
theorem linkAnnots_IdBound (doc : Document) (pid : ObjectId) (refs : List Object)
    (hb : IdBound doc) : IdBound (linkAnnots doc pid refs) := by
  unfold linkAnnots
  rcases hg : doc.get_object pid with _ | w
  · exact hb
  rcases w with _ | b | i | q | s | s | arr | d | rid
  case Dictionary => exact IdBound_set_object doc pid _ _ hg hb
  all_goals exact hb

/-- The encoder loop over an appended group list is the sequential
composition of the loops. -/
theorem processGroups_append (pm : List (Nat × ObjectId)) (now : String)
    (gs1 : List (Nat × List AnnotationData)) :
    ∀ (doc : Document) (gs2 : List (Nat × List AnnotationData)),
      processGroups doc pm now (gs1 ++ gs2) =
        (processGroups doc pm now gs1).bind fun d => processGroups d pm now gs2 := by
  induction gs1 with
  | nil => intro doc gs2; rfl
  | cons g rest ih =>
    intro doc gs2
    obtain ⟨k0, as0⟩ := g
    rcases hl : lookupPage pm (k0 + 1) with _ | pid
    · simp only [List.cons_append, processGroups, hl]
      rfl
    · rcases hc : createAll doc as0 pid now with ⟨d1, refs⟩
      simp only [List.cons_append, processGroups, hl, hc]
      exact ih _ gs2

/-- When every group's page has a counterpart, the encoder loop succeeds,
keeps the id-bound discipline, and preserves every object not stored under
some group's page id. -/
theorem processGroups_spec (pm : List (Nat × ObjectId)) (now : String)
    (gs : List (Nat × List AnnotationData)) :
    ∀ doc : Document, IdBound doc →
      (∀ k as, (k, as) ∈ gs → ∃ pid, lookupPage pm (k + 1) = some pid) →
      ∃ d2, processGroups doc pm now gs = .ok d2 ∧ IdBound d2 ∧
        ∀ z w, doc.get_object z = some w →
          (∀ k pid, (∃ as, (k, as) ∈ gs) → lookupPage pm (k + 1) = some pid → pid ≠ z) →
          d2.get_object z = some w := by
  induction gs with
  | nil =>
    intro doc hb _
    exact ⟨doc, rfl, hb, fun z w h _ => h⟩
  | cons g rest ih =>
    obtain ⟨k0, as0⟩ := g
    intro doc hb hall
    obtain ⟨pid, hl⟩ := hall k0 as0 (by simp)
    obtain ⟨d1, refs, hc, hb1, hget1, _, _, _⟩ := createAll_fst as0 doc pid now
    have hbL : IdBound (linkAnnots d1 pid refs) := linkAnnots_IdBound d1 pid refs (hb1 hb)
    obtain ⟨d2, hp2, hb2, hget2⟩ := ih (linkAnnots d1 pid refs) hbL
      (fun k as hm => hall k as (List.mem_cons_of_mem _ hm))
    refine ⟨d2, ?_, hb2, ?_⟩
    · simp only [processGroups, hl, hc, hp2]
    · intro z w hz hguard
      have hne : pid ≠ z := hguard k0 pid ⟨as0, by simp⟩ hl
      have hz1 : d1.get_object z = some w := hget1 z w hz hb
      have hzL : (linkAnnots d1 pid refs).get_object z = some w := by
        rw [linkAnnots_get_ne d1 pid refs z (fun he => hne he.symm)]
        exact hz1
      exact hget2 z w hzL
        (fun k pid2 hk hlk2 => hguard k pid2 (hk.elim fun as2 hm =>
          ⟨as2, List.mem_cons_of_mem _ hm⟩) hlk2)

/-- The existing-entries read only depends on the graph through the
indirect `Annots` array object, if any. -/
theorem annotsEntryList_congr (doc d2 : Document) (pd : Dict)
    (h : ∀ rid, dictGet pd "Annots" = some (.Reference rid) →
      d2.get_object rid = doc.get_object rid) :
    annotsEntryList d2 pd = annotsEntryList doc pd := by
  unfold annotsEntryList
  rcases hg : dictGet pd "Annots" with _ | o
  · rfl
  rcases o with _ | b | i | q | s | s | arr | d | rid
  case Reference =>
    show (match d2.get_object rid with
      | some (Object.Array arr) => arr
      | _ => []) = (match doc.get_object rid with
      | some (Object.Array arr) => arr
      | _ => [])
    rw [h rid hg]
  all_goals rfl

/-- Linking a page whose object is a dictionary writes back the existing
entries extended with the new references, as a direct array. -/
theorem linkAnnots_spec (doc : Document) (pid : ObjectId) (refs : List Object) (pd : Dict)
    (h : doc.get_object pid = some (.Dictionary pd)) :
    linkAnnots doc pid refs = doc.set_object pid
      (.Dictionary (dictSet pd "Annots" (.Array (annotsEntryList doc pd ++ refs)))) := by
  unfold linkAnnots annotsEntryList
  rw [h]

/-- C8: for a page targeted by a save call (in a document with distinct
page object ids, the page's object a dictionary, and its `Annots` either
absent, a direct array, or a reference — not aliased by a page id — to an
array), the call succeeds and the page's `Annots` afterwards is a direct
array holding the original entries in their original order followed by one
reference per instance targeted at that page: nothing is removed or
reordered. -/
theorem c8_append_preserves_existing (doc : Document) (dest now : String)
    (annotations : List AnnotationData) (k : Nat) (as : List AnnotationData)
    (pid : ObjectId) (pd : Dict)
    (hb : IdBound doc)
    (hall : ∀ a ∈ annotations, ∃ pid2, lookupPage doc.pages (a.page + 1) = some pid2)
    (hmem : (k, as) ∈ groupByPage annotations)
    (hlk : lookupPage doc.pages (k + 1) = some pid)
    (hobj : doc.get_object pid = some (.Dictionary pd))
    (hinj : ∀ k2 pid2, lookupPage doc.pages (k2 + 1) = some pid2 → k2 ≠ k → pid2 ≠ pid)
    (hridp : ∀ rid, dictGet pd "Annots" = some (.Reference rid) →
      ∃ arr, doc.get_object rid = some (.Array arr))
    (href : ∀ rid, dictGet pd "Annots" = some (.Reference rid) →
      ∀ k2 pid2, lookupPage doc.pages (k2 + 1) = some pid2 → pid2 ≠ rid) :
    ∃ r d2, ∃ newIds : List ObjectId,
      save_annotations doc dest annotations now = .ok (r, d2) ∧
      newIds.length = as.length ∧
      d2.get_object pid = some (.Dictionary (dictSet pd "Annots"
        (.Array (annotsEntryList doc pd ++ newIds.map Object.Reference)))) := by
  obtain ⟨gs1, gs2, hsplit⟩ := List.append_of_mem hmem
  have hpair := groupByPage_pairwise annotations
  rw [hsplit] at hpair
  obtain ⟨hp1, hp2, hp12⟩ := List.pairwise_append.mp hpair
  have hkeys1 : ∀ x ∈ gs1, x.1 < k := fun x hx => hp12 x hx (k, as) (by simp)
  have hkeys2 : ∀ x ∈ gs2, k < x.1 := fun x hx => (List.pairwise_cons.mp hp2).1 x hx
  have hvalid : ∀ k2 as2, (k2, as2) ∈ groupByPage annotations →
      ∃ pid2, lookupPage doc.pages (k2 + 1) = some pid2 := by
    intro k2 as2 hm
    obtain ⟨a, ha, hap⟩ := (groupByPage_key_iff annotations k2).mp ⟨as2, hm⟩
    obtain ⟨pid2, hp⟩ := hall a ha
    exact ⟨pid2, hap ▸ hp⟩
  -- phase 1: the groups before the target page
  obtain ⟨dA, hpA, hbA, hgetA⟩ := processGroups_spec doc.pages now gs1 doc hb
    (fun k2 as2 hm => hvalid k2 as2 (by rw [hsplit]; exact List.mem_append_left _ hm))
  have hguard1 : ∀ k2 pid2, (∃ as2, (k2, as2) ∈ gs1) →
      lookupPage doc.pages (k2 + 1) = some pid2 → pid2 ≠ pid := by
    rintro k2 pid2 ⟨as2, hm⟩ hlk2
    exact hinj k2 pid2 hlk2 (Nat.ne_of_lt (hkeys1 (k2, as2) hm))
  have hpidA : dA.get_object pid = some (.Dictionary pd) := hgetA pid _ hobj hguard1
  have hridA : ∀ rid, dictGet pd "Annots" = some (.Reference rid) →
      dA.get_object rid = doc.get_object rid := by
    intro rid hgr
    obtain ⟨arr, harr⟩ := hridp rid hgr
    rw [harr]
    exact hgetA rid _ harr (fun k2 pid2 hk2 hlk2 => href rid hgr k2 pid2 hlk2)
  -- phase 2: the target page's group
  obtain ⟨d1, refs, hc, hb1, hget1, _, _, ids, hids, hlenids⟩ := createAll_fst as dA pid now
  have hpid1 : d1.get_object pid = some (.Dictionary pd) := hget1 pid _ hpidA hbA
  have hrid1 : ∀ rid, dictGet pd "Annots" = some (.Reference rid) →
      d1.get_object rid = doc.get_object rid := by
    intro rid hgr
    obtain ⟨arr, harr⟩ := hridp rid hgr
    have hA : dA.get_object rid = some (.Array arr) := by rw [hridA rid hgr, harr]
    rw [harr]
    exact hget1 rid _ hA hbA
  have hexist : annotsEntryList d1 pd = annotsEntryList doc pd :=
    annotsEntryList_congr doc d1 pd hrid1
  have hstep : linkAnnots d1 pid refs = d1.set_object pid
      (.Dictionary (dictSet pd "Annots" (.Array (annotsEntryList doc pd ++ refs)))) := by
    rw [linkAnnots_spec d1 pid refs pd hpid1, hexist]
  have hpid2 : (d1.set_object pid
      (.Dictionary (dictSet pd "Annots" (.Array (annotsEntryList doc pd ++ refs))))).get_object
      pid = some (.Dictionary (dictSet pd "Annots"
        (.Array (annotsEntryList doc pd ++ refs)))) :=
    get_object_set_object_self d1 pid _
  have hb2 : IdBound (d1.set_object pid
      (.Dictionary (dictSet pd "Annots" (.Array (annotsEntryList doc pd ++ refs))))) :=
    IdBound_set_object d1 pid _ _ hpid1 (hb1 hbA)
  -- phase 3: the groups after the target page
  obtain ⟨dF, hpF, hbF, hgetF⟩ := processGroups_spec doc.pages now gs2
    (d1.set_object pid (.Dictionary (dictSet pd "Annots"
      (.Array (annotsEntryList doc pd ++ refs))))) hb2
    (fun k2 as2 hm => hvalid k2 as2 (by
      rw [hsplit]
      exact List.mem_append_right _ (List.mem_cons_of_mem _ hm)))
  have hpidF : dF.get_object pid = some (.Dictionary (dictSet pd "Annots"
      (.Array (annotsEntryList doc pd ++ refs)))) := by
    apply hgetF pid _ hpid2
    rintro k2 pid2 ⟨as2, hm⟩ hlk2
    exact hinj k2 pid2 hlk2 (Nat.ne_of_gt (hkeys2 (k2, as2) hm))
  have hrun : processGroups doc doc.pages now (groupByPage annotations) = .ok dF := by
    rw [hsplit, processGroups_append, hpA]
    show processGroups dA doc.pages now ((k, as) :: gs2) = .ok dF
    simp only [processGroups, hlk, hc, hstep, hpF]
  refine ⟨⟨true, dest, annotations.length⟩, dF, ids, ?_, hlenids, ?_⟩
  · simp only [save_annotations, hrun]
    rfl
  · rw [← hids]
    exact hpidF


/-- C8 (witness): saving two instances onto page 0 (whose `Annots` is an
indirect reference to a one-entry array) and one onto page 1 keeps the
existing entry first and appends exactly two new references on page 0. -/
theorem c8_witness :
    ∃ r d2, ∃ newIds : List ObjectId,
      save_annotations docTwoPages "out" [hl1, txt1, txtPage1] "D:x" = .ok (r, d2) ∧
      newIds.length = 2 ∧
      d2.get_object (1, 0) = some (.Dictionary
        (dictSet [("Annots", .Reference (10, 0))] "Annots"
          (.Array ([.Reference (11, 0)] ++ newIds.map Object.Reference)))) := by
  have hg : groupByPage [hl1, txt1, txtPage1] = [(0, [hl1, txt1]), (1, [txtPage1])] := rfl
  have hb : IdBound docTwoPages := by
    rintro id w hm
    simp [docTwoPages] at hm
    rcases hm with ⟨h1, _⟩ | ⟨h1, _⟩ | ⟨h1, _⟩ | ⟨h1, _⟩ <;> rw [h1] <;> decide
  have hall : ∀ a ∈ [hl1, txt1, txtPage1],
      ∃ pid2, lookupPage docTwoPages.pages (a.page + 1) = some pid2 := by
    intro a ha
    simp only [List.mem_cons, List.not_mem_nil, or_false] at ha
    rcases ha with rfl | rfl | rfl
    · exact ⟨(1, 0), rfl⟩
    · exact ⟨(1, 0), rfl⟩
    · exact ⟨(2, 0), rfl⟩
  have hpids : ∀ k2 pid2, lookupPage docTwoPages.pages (k2 + 1) = some pid2 →
      (k2 = 0 ∧ pid2 = (1, 0)) ∨ (k2 = 1 ∧ pid2 = (2, 0)) := by
    intro k2 pid2 hlk2
    rcases k2 with _ | k2
    · exact Or.inl ⟨rfl, (Option.some_inj.mp hlk2).symm⟩
    rcases k2 with _ | k2
    · exact Or.inr ⟨rfl, (Option.some_inj.mp hlk2).symm⟩
    · exfalso
      simp only [docTwoPages, lookupPage] at hlk2
      split_ifs at hlk2 <;> omega
  have h := c8_append_preserves_existing docTwoPages "out" "D:x" [hl1, txt1, txtPage1]
    0 [hl1, txt1] (1, 0) [("Annots", .Reference (10, 0))]
    hb hall
    (by rw [hg]; exact List.mem_cons_self _ _)
    rfl rfl
    (by
      intro k2 pid2 hlk2 hne
      rcases hpids k2 pid2 hlk2 with ⟨hk, _⟩ | ⟨_, hp⟩
      · exact absurd hk hne
      · rw [hp]; decide)
    (by
      intro rid hgr
      have h3 : Object.Reference (10, 0) = .Reference rid := Option.some_inj.mp hgr
      have h4 : ((10, 0) : ObjectId) = rid := Object.Reference.inj h3
      exact ⟨[.Reference (11, 0)], by rw [← h4]; rfl⟩)
    (by
      intro rid hgr k2 pid2 hlk2
      have h3 : Object.Reference (10, 0) = .Reference rid := Option.some_inj.mp hgr
      have h4 : ((10, 0) : ObjectId) = rid := Object.Reference.inj h3
      rcases hpids k2 pid2 hlk2 with ⟨_, hp⟩ | ⟨_, hp⟩ <;> rw [hp, ← h4] <;> decide)
  exact h

/-- C6: encoding a markup annotation with an empty quad-point list writes a
`QuadPoints` array synthesized from the rect's four corners in the order
top-left, top-right, bottom-left, bottom-right — for rect (10,10,50,30)
exactly (10,30),(50,30),(10,10),(50,10) — while a non-empty quad-point list
is flattened in order instead. -/
theorem c6_default_quad_synthesis (dict : Dict) (qps : List PdfPoint) (r : PdfRect) :
    (add_quad_points dict [] r = dictSet dict "QuadPoints" (.Array
      [.Real (f32round r.x1), .Real (f32round r.y2),
       .Real (f32round r.x2), .Real (f32round r.y2),
       .Real (f32round r.x1), .Real (f32round r.y1),
       .Real (f32round r.x2), .Real (f32round r.y1)])) ∧
    (qps ≠ [] → add_quad_points dict qps r = dictSet dict "QuadPoints"
      (.Array (flattenPoints qps))) ∧
    add_quad_points [] [] ⟨10, 10, 50, 30⟩ =
      [("QuadPoints", .Array [.Real 10, .Real 30, .Real 50, .Real 30,
        .Real 10, .Real 10, .Real 50, .Real 10])] := by
  have h10 := f32round_eq_self 10 0 (by norm_num) (by norm_num) (by norm_num)
  have h30 := f32round_eq_self 30 0 (by norm_num) (by norm_num) (by norm_num)
  have h50 := f32round_eq_self 50 0 (by norm_num) (by norm_num) (by norm_num)
  norm_num at h10 h30 h50
  refine ⟨by simp [add_quad_points], fun hq => ?_, ?_⟩
  · rcases qps with _ | ⟨p, rest⟩
    · exact absurd rfl hq
    · simp [add_quad_points]
  · simp [add_quad_points, dictSet, h10, h30, h50]

/-- C6 (witness): the non-empty branch instantiated at one supplied point. -/
theorem c6_witness :
    [(⟨1, 2⟩ : PdfPoint)] ≠ ([] : List PdfPoint) ∧
    add_quad_points [] [⟨1, 2⟩] ⟨10, 10, 50, 30⟩ =
      dictSet [] "QuadPoints" (.Array (flattenPoints [⟨1, 2⟩])) :=
  ⟨by simp, (c6_default_quad_synthesis [] [⟨1, 2⟩] ⟨10, 10, 50, 30⟩).2.1 (by simp)⟩
